import Mathlib

/-!
Verification of the necrosword executor core against its specification.

This file gives a shallow embedding of `src/internal/grpc/server.go`:
the single-command Execution Unit (`Execute`), the pipeline orchestrator
(`ExecutePipeline` / `ExecutePipelineStream`), the output forwarding helpers
(`streamOutput` / `streamPipelineOutput`), cancellation (`CancelProcess`)
and health reporting (`Health`).

Modelling conventions:
* Interactions with the operating system (pipe creation, `cmd.Start`,
  `cmd.Wait`, captured output, context state) are passed in explicitly as
  oracle values (`ExecEnv`, `StepOracle`, `StreamStepOracle`), one per
  fallible interaction point, so every control path of the Go code is a
  computable branch of the Lean definition.
* Generated UUIDs are passed in as plain strings.
* Wall-clock fields (timestamps, durations, uptime) are omitted: no claim
  refers to them.
* Go `int32` step counters hold list lengths of in-memory slices; they are
  modelled as `Nat` (overflow is unreachable for representable requests).
* The process registry `map[string]*RunningProcess` is modelled as an
  association list with the map's unique-key discipline.
-/

namespace Necrosword

/-- Configuration consumed by the executor (`config.ExecutorConfig`):
allowed tools, default timeout seconds, advisory max-concurrent. -/
structure ExecutorConfig where
  allowedTools : List String
  defaultTimeout : Nat
  maxConcurrent : Nat
  deriving DecidableEq

/-- Character-wise lowercase of a string (the kernel-evaluable spelling of
`String.toLower`). -/
def strLower (s : String) : String := String.mk (s.data.map Char.toLower)

/-- Modelled from the spec: `config.IsToolAllowed` lives in
`internal/config`, which is not under `src/`; spec §4.1 describes it as a
pure case-insensitive exact membership test against the configured
allowlist. -/
def isToolAllowed (cfg : ExecutorConfig) (tool : String) : Bool :=
  cfg.allowedTools.any (fun t => strLower t == strLower tool)

/-- `executorv1.ExecuteRequest` fields used by the server. -/
structure ExecuteRequest where
  tool : String
  args : List String
  workDir : String
  env : List String
  timeoutSeconds : Nat
  deriving DecidableEq

/-- `executorv1.ExecuteResponse` (timestamps and duration omitted). -/
structure ExecuteResponse where
  processId : String
  tool : String
  args : List String
  stdout : String
  stderr : String
  exitCode : Int
  success : Bool
  error : String
  timedOut : Bool
  deriving DecidableEq

/-- Outcome of `cmd.Wait()` (server.go line 133): clean exit, an
`*exec.ExitError` carrying the exit code and its message, or any other
error (start/wait plumbing failure) carrying only a message. -/
inductive WaitResult where
  | ok : WaitResult
  | exitError (code : Int) (msg : String) : WaitResult
  | otherError (msg : String) : WaitResult
  deriving DecidableEq

/-- State of `ctx.Err()` when the Execution Unit classifies the outcome:
`nil`, `context.DeadlineExceeded`, or `context.Canceled`. -/
inductive CtxErr where
  | noErr : CtxErr
  | deadlineExceeded : CtxErr
  | canceled : CtxErr
  deriving DecidableEq

/-- Go `context` semantics: invoking the `context.CancelFunc` of a context
whose deadline has not yet expired puts it in the `context.Canceled` state,
never `DeadlineExceeded`.  This is what a running process's registry handle
`Cancel` (server.go 102, 232, 563) does when `CancelProcess` fires it. -/
def ctxErrAfterExplicitCancel : CtxErr := CtxErr.canceled

/-- The nondeterministic environment observed by one `Execute` call:
results of the two pipe creations, of `cmd.Start`, of `cmd.Wait`, the
context state at classification time and the accumulated output. -/
structure ExecEnv where
  stdoutPipeErr : Option String
  stderrPipeErr : Option String
  startErr : Option String
  wait : WaitResult
  ctxErr : CtxErr
  stdout : String
  stderr : String
  deriving DecidableEq

/-- The response skeleton built at server.go 137-146 before outcome
classification (exit code, success, error and timed-out fields still at
their protobuf zero values). -/
def baseResponse (req : ExecuteRequest) (pid : String) (env : ExecEnv) : ExecuteResponse :=
  { processId := pid
    tool := req.tool
    args := req.args
    stdout := env.stdout
    stderr := env.stderr
    exitCode := 0
    success := false
    error := ""
    timedOut := false }

/-- Outcome classification at server.go 148-164: on a wait error, deadline
expiry takes priority (exitCode -1, error "command timed out", timedOut);
otherwise an `*exec.ExitError` contributes its exit code and message, and
any other error gives exitCode -1 with its message; a clean exit gives
exitCode 0 and success. -/
def classify (base : ExecuteResponse) (w : WaitResult) (ce : CtxErr) : ExecuteResponse :=
  match w with
  | WaitResult.ok => { base with exitCode := 0, success := true }
  | WaitResult.exitError code msg =>
      if ce = CtxErr.deadlineExceeded then
        { base with exitCode := -1, error := "command timed out", timedOut := true, success := false }
      else
        { base with exitCode := code, error := msg, success := false }
  | WaitResult.otherError msg =>
      if ce = CtxErr.deadlineExceeded then
        { base with exitCode := -1, error := "command timed out", timedOut := true, success := false }
      else
        { base with exitCode := -1, error := msg, success := false }

/-- Everything one `Execute` call produces: the value returned at the call
boundary (`Except.error` models a non-nil Go error return), whether a
process was spawned, the registry contents while the process was tracked,
and the registry contents after the deferred removal. -/
structure ExecOutcome where
  result : Except String ExecuteResponse
  spawned : Bool
  registryDuring : List String
  registryFinal : List String

/-- One call to `ExecutorServer.Execute` (server.go 51-176).  `reg` is the
set of tracked process ids at call entry, `pid` the generated UUID.
Control flow mirrors the Go function: allowlist rejection returns an error
before anything else; each pipe-creation failure and a start failure also
return wrapped errors; after a successful start the id is inserted into the
registry, the outcome is classified and returned normally, and the deferred
delete restores the registry. -/
def execute (cfg : ExecutorConfig) (reg : List String) (req : ExecuteRequest)
    (pid : String) (env : ExecEnv) : ExecOutcome :=
  if !isToolAllowed cfg req.tool then
    { result := Except.error ("tool '" ++ req.tool ++ "' is not allowed")
      spawned := false, registryDuring := reg, registryFinal := reg }
  else
    match env.stdoutPipeErr with
    | some e =>
        { result := Except.error ("failed to create stdout pipe: " ++ e)
          spawned := false, registryDuring := reg, registryFinal := reg }
    | none =>
      match env.stderrPipeErr with
      | some e =>
          { result := Except.error ("failed to create stderr pipe: " ++ e)
            spawned := false, registryDuring := reg, registryFinal := reg }
      | none =>
        match env.startErr with
        | some e =>
            { result := Except.error ("failed to start command: " ++ e)
              spawned := false, registryDuring := reg, registryFinal := reg }
        | none =>
            { result := Except.ok (classify (baseResponse req pid env) env.wait env.ctxErr)
              spawned := true, registryDuring := pid :: reg, registryFinal := reg }

/-- A registry handle (`RunningProcess`, server.go 32-39); the cancellation
control and start time are not data the claims inspect. -/
structure RunningProcessH where
  id : String
  tool : String
  args : List String
  deriving DecidableEq

/-- `executorv1.CancelResponse`. -/
structure CancelResponse where
  success : Bool
  message : String
  deriving DecidableEq

/-- `CancelProcess` (server.go 632-650): an absent id yields a structured
not-found response (returned normally, not an error); a present id fires
the handle's cancellation control and reports success.  The second
component records whether `proc.Cancel()` was invoked. -/
def cancelProcess (running : List (String × RunningProcessH)) (pid : String) :
    CancelResponse × Bool :=
  match running.lookup pid with
  | none => ({ success := false, message := "process " ++ pid ++ " not found" }, false)
  | some _ => ({ success := true, message := "process " ++ pid ++ " cancelled" }, true)

/-- `executorv1.HealthResponse` (uptime and checked-at omitted). -/
structure HealthResponse where
  status : String
  version : String
  runningCount : Nat
  maxConcurrent : Nat
  deriving DecidableEq

/-- The server state that `Health` reads: configuration and registry. -/
structure ServerState where
  config : ExecutorConfig
  running : List (String × RunningProcessH)

/-- `Health` (server.go 675-688): constant status and version strings, the
registry entry count under the read lock, the configured max-concurrent. -/
def health (s : ServerState) : HealthResponse :=
  { status := "healthy"
    version := "0.1.0"
    runningCount := s.running.length
    maxConcurrent := s.config.maxConcurrent }

/-- `streamOutput` (server.go 702-731).  Each input pair is one scanned
line together with whether its `stream.Send` succeeds.  Per line the Go
loop first appends `line ++ "\n"` to the accumulation buffer and then
attempts delivery; a failed delivery makes the function return at once.
Result: final buffer contents and the list of delivered lines. -/
def streamOutput : List (String × Bool) → String → String × List String
  | [], buf => (buf, [])
  | (l, ok) :: rest, buf =>
      let buf2 := buf ++ l ++ "\n"
      if ok then
        let r := streamOutput rest buf2
        (r.1, l :: r.2)
      else (buf2, [])

/-- `streamPipelineOutput` (server.go 733-764): identical control flow to
`streamOutput`, forwarding step-tagged events instead; the tag payload does
not influence control flow and is omitted. -/
def streamPipelineOutput : List (String × Bool) → String → String × List String
  | [], buf => (buf, [])
  | (l, ok) :: rest, buf =>
      let buf2 := buf ++ l ++ "\n"
      if ok then
        let r := streamPipelineOutput rest buf2
        (r.1, l :: r.2)
      else (buf2, [])

/-- The accumulation-buffer contents for a list of lines: each line
followed by a newline, concatenated in order. -/
def linesBuf : List String → String
  | [] => ""
  | l :: ls => l ++ "\n" ++ linesBuf ls

/-- `executorv1.BuildStep` fields used by the pipeline loops. -/
structure BuildStep where
  name : String
  tool : String
  args : List String
  workDir : String
  env : List String
  timeoutSeconds : Nat
  continueOnError : Bool
  deriving DecidableEq

/-- `executorv1.PipelineRequest` fields used by the pipeline loops. -/
structure PipelineRequest where
  id : String
  name : String
  steps : List BuildStep
  workspaceDir : String
  env : List String
  timeoutSeconds : Nat

/-- `executorv1.StepResult`: step name, index, nested execute response. -/
structure StepResult where
  name : String
  stepIndex : Nat
  executeResult : ExecuteResponse
  deriving DecidableEq

/-- The mutable fields of the `PipelineResponse` that the step loop
updates while it runs. -/
structure PipelineState where
  success : Bool
  failedStep : String
  stepResults : List StepResult
  completedSteps : Nat
  deriving DecidableEq

/-- The loop state `ExecutePipeline` starts from (server.go 326-333):
success true, no failed step, empty results, zero completed. -/
def initPipelineState : PipelineState :=
  { success := true, failedStep := "", stepResults := [], completedSteps := 0 }

/-- A protobuf `ExecuteResponse` with every field at its zero value, as
produced by `&executorv1.ExecuteResponse{...}` literals that set only some
fields. -/
def zeroResponse : ExecuteResponse :=
  { processId := "", tool := "", args := [], stdout := "", stderr := ""
    exitCode := 0, success := false, error := "", timedOut := false }

/-- What the `ExecutePipeline` loop observes for one step: whether
`ctx.Err() != nil` at the top of the iteration, and what the nested
`s.Execute` call returns for that step. -/
structure StepOracle where
  ctxDone : Bool
  exec : Except String ExecuteResponse

/-- Body of one `ExecutePipeline` iteration after the context check
(server.go 367-390): invoke `Execute`; on an invocation error synthesize a
failed `ExecuteResponse` carrying the message and mark the pipeline failed
(unconditionally); on a returned result mark the pipeline failed only when
the result is unsuccessful and the step's continueOnError is unset; then
append the StepResult and set completedSteps to `i + 1`. -/
def processStep (step : BuildStep) (o : StepOracle) (i : Nat) (st : PipelineState) :
    PipelineState :=
  match o.exec with
  | Except.error e =>
      let sr : StepResult :=
        { name := step.name
          stepIndex := i
          executeResult := { zeroResponse with success := false, error := e } }
      { st with
        success := false
        failedStep := step.name
        stepResults := st.stepResults ++ [sr]
        completedSteps := i + 1 }
  | Except.ok r =>
      let sr : StepResult := { name := step.name, stepIndex := i, executeResult := r }
      let st1 :=
        if !r.success && !step.continueOnError then
          { st with success := false, failedStep := step.name }
        else st
      { st1 with stepResults := st1.stepResults ++ [sr], completedSteps := i + 1 }

/-- The `ExecutePipeline` step loop (server.go 336-396).  At each step:
if `ctx.Err() != nil`, mark failure with that step's name and break;
otherwise run the step body and break when the pipeline's current success
flag is false and the step's continueOnError is unset (line 393). -/
def stepLoop (steps : List BuildStep) (o : Nat → StepOracle) (i : Nat)
    (st : PipelineState) : PipelineState :=
  match steps with
  | [] => st
  | step :: rest =>
      if (o i).ctxDone then { st with success := false, failedStep := step.name }
      else
        let st2 := processStep step (o i) i st
        if !st2.success && !step.continueOnError then st2
        else stepLoop rest o (i + 1) st2

/-- The loop states of `stepLoop` after each processed iteration, in order
(the state after the context-check break, after a step-failure break, or
after each completed step body). -/
def stepLoopStates (steps : List BuildStep) (o : Nat → StepOracle) (i : Nat)
    (st : PipelineState) : List PipelineState :=
  match steps with
  | [] => []
  | step :: rest =>
      if (o i).ctxDone then [{ st with success := false, failedStep := step.name }]
      else
        let st2 := processStep step (o i) i st
        if !st2.success && !step.continueOnError then [st2]
        else st2 :: stepLoopStates rest o (i + 1) st2

/-- `executorv1.PipelineResponse` (timestamps and duration omitted). -/
structure PipelineResponse where
  pipelineId : String
  name : String
  success : Bool
  failedStep : String
  totalSteps : Nat
  completedSteps : Nat
  stepResults : List StepResult
  deriving DecidableEq

/-- `ExecutePipeline` (server.go 305-409): choose the pipeline id (the
caller's verbatim unless empty, else the generated one), run the step loop
from the initial state, and assemble the response whose `totalSteps` was
fixed to the request's step count before the loop (line 331). -/
def executePipeline (req : PipelineRequest) (genId : String)
    (o : Nat → StepOracle) : PipelineResponse :=
  let pipelineId := if req.id = "" then genId else req.id
  let final := stepLoop req.steps o 0 initPipelineState
  { pipelineId := pipelineId
    name := req.name
    success := final.success
    failedStep := final.failedStep
    totalSteps := req.steps.length
    completedSteps := final.completedSteps
    stepResults := final.stepResults }

/-- What the `ExecutePipelineStream` loop observes for one step: whether
`ctx.Err() != nil` at the top of the iteration, and the `ExecuteResponse`
produced by `executeStepWithStreaming` (which sets `ExecuteResult` on every
return path, so it is never nil). -/
structure StreamStepOracle where
  ctxDone : Bool
  result : ExecuteResponse

/-- The `ExecutePipelineStream` step loop (server.go 444-489).  Unlike
`ExecutePipeline`, the step result is always a StepResult (invocation
errors are already encoded by `executeStepWithStreaming`), the append and
count update happen before the failure check, and the break condition
inspects the current step's own result (line 482) rather than the
pipeline's accumulated success flag. -/
def streamStepLoop (steps : List BuildStep) (o : Nat → StreamStepOracle) (i : Nat)
    (st : PipelineState) : PipelineState :=
  match steps with
  | [] => st
  | step :: rest =>
      if (o i).ctxDone then { st with success := false, failedStep := step.name }
      else
        let sr : StepResult :=
          { name := step.name, stepIndex := i, executeResult := (o i).result }
        let st2 := { st with stepResults := st.stepResults ++ [sr], completedSteps := i + 1 }
        if !(o i).result.success && !step.continueOnError then
          { st2 with success := false, failedStep := step.name }
        else streamStepLoop rest o (i + 1) st2

/-- The loop states of `streamStepLoop` after each processed iteration. -/
def streamStepLoopStates (steps : List BuildStep) (o : Nat → StreamStepOracle) (i : Nat)
    (st : PipelineState) : List PipelineState :=
  match steps with
  | [] => []
  | step :: rest =>
      if (o i).ctxDone then [{ st with success := false, failedStep := step.name }]
      else
        let sr : StepResult :=
          { name := step.name, stepIndex := i, executeResult := (o i).result }
        let st2 := { st with stepResults := st.stepResults ++ [sr], completedSteps := i + 1 }
        if !(o i).result.success && !step.continueOnError then
          [{ st2 with success := false, failedStep := step.name }]
        else st2 :: streamStepLoopStates rest o (i + 1) st2

/-- `ExecutePipelineStream` (server.go 412-501): same response assembly as
`ExecutePipeline` around `streamStepLoop`. -/
def executePipelineStream (req : PipelineRequest) (genId : String)
    (o : Nat → StreamStepOracle) : PipelineResponse :=
  let pipelineId := if req.id = "" then genId else req.id
  let final := streamStepLoop req.steps o 0 initPipelineState
  { pipelineId := pipelineId
    name := req.name
    success := final.success
    failedStep := final.failedStep
    totalSteps := req.steps.length
    completedSteps := final.completedSteps
    stepResults := final.stepResults }

/-- A successful `ExecuteResponse` fixture for concrete scenarios. -/
def okResponse : ExecuteResponse := { zeroResponse with exitCode := 0, success := true }

/-- A failed (non-zero exit) `ExecuteResponse` fixture. -/
def failResponse : ExecuteResponse :=
  { zeroResponse with exitCode := 1, success := false, error := "exit status 1" }

/-- Fixture: a continuable step named "step1". -/
def stepCexA : BuildStep :=
  { name := "step1", tool := "rm", args := [], workDir := "", env := []
    timeoutSeconds := 0, continueOnError := true }

/-- Fixture: a non-continuable step named "step2". -/
def stepCexB : BuildStep :=
  { name := "step2", tool := "echo", args := [], workDir := "", env := []
    timeoutSeconds := 0, continueOnError := false }

/-- Fixture: a non-continuable step named "step3". -/
def stepCexC : BuildStep :=
  { name := "step3", tool := "echo", args := [], workDir := "", env := []
    timeoutSeconds := 0, continueOnError := false }

/-- Fixture pipeline request for the continue-on-error counterexample. -/
def cexReq : PipelineRequest :=
  { id := "p", name := "cex", steps := [stepCexA, stepCexB, stepCexC]
    workspaceDir := "", env := [], timeoutSeconds := 0 }

/-- Fixture oracle for the continue-on-error counterexample: step 1's
invocation fails (`s.Execute` returns an error), later steps succeed. -/
def cexOracle : Nat → StepOracle :=
  fun i =>
    if i = 0 then { ctxDone := false, exec := Except.error "tool 'rm' is not allowed" }
    else { ctxDone := false, exec := Except.ok okResponse }

/-- Fixture: a continuable step for the amended-C2 witness. -/
def stepW : BuildStep :=
  { name := "w1", tool := "echo", args := [], workDir := "", env := []
    timeoutSeconds := 0, continueOnError := true }

/-- Fixture oracle for the amended-C2 witness: the step returns a failed
result (not an invocation error). -/
def wOracle : Nat → StepOracle :=
  fun _ => { ctxDone := false, exec := Except.ok failResponse }

/-- Fixture: a non-continuable step named "step1". -/
def stepS1 : BuildStep :=
  { name := "step1", tool := "echo", args := [], workDir := "", env := []
    timeoutSeconds := 0, continueOnError := false }

/-- Fixture pipeline request for the spec's 3-step first-failure scenario
(step 2 fails, nothing continuable). -/
def specReq : PipelineRequest :=
  { id := "", name := "spec", steps := [stepS1, stepCexB, stepCexC]
    workspaceDir := "", env := [], timeoutSeconds := 0 }

/-- Fixture oracle for the spec scenario: step 1 succeeds, step 2 fails. -/
def specOracle : Nat → StepOracle :=
  fun i =>
    if i = 0 then { ctxDone := false, exec := Except.ok okResponse }
    else { ctxDone := false, exec := Except.ok failResponse }

/-!  Theorems.  -/

/-- One step body appends exactly one StepResult and sets the completed
counter to `i + 1`. -/
theorem processStep_counts (step : BuildStep) (o : StepOracle) (i : Nat)
    (st : PipelineState) :
    (processStep step o i st).completedSteps = i + 1 ∧
    (processStep step o i st).stepResults.length = st.stepResults.length + 1 := by
  cases h : o.exec with
  | error e => simp [processStep, h]
  | ok r =>
      constructor
      · simp [processStep, h]
      · simp only [processStep, h]
        split <;> simp

/-- A step body whose invocation succeeded with a successful result, or
with a failed result on a continuable step, leaves the success flag and
the failed-step name untouched. -/
theorem processStep_ok_preserves (step : BuildStep) (o : StepOracle) (i : Nat)
    (st : PipelineState) (r : ExecuteResponse) (hr : o.exec = Except.ok r)
    (h : r.success = true ∨ step.continueOnError = true) :
    (processStep step o i st).success = st.success ∧
    (processStep step o i st).failedStep = st.failedStep := by
  rcases h with h | h <;> simp [processStep, hr, h]

/-- The step loop can only grow the completed counter up to the number of
remaining steps. -/
theorem stepLoop_completed_le (steps : List BuildStep) (o : Nat → StepOracle) :
    ∀ (i : Nat) (st : PipelineState), st.completedSteps ≤ i →
      (stepLoop steps o i st).completedSteps ≤ i + steps.length := by
  induction steps with
  | nil => intro i st h; simp only [stepLoop, List.length_nil, Nat.add_zero]; exact h
  | cons step rest ih =>
      intro i st h
      have hcounts := (processStep_counts step (o i) i st).1
      simp only [stepLoop, List.length_cons]
      split
      · simp only []; omega
      · split
        · omega
        · have := ih (i + 1) (processStep step (o i) i st) (by omega)
          omega

/-- The last trace state of `stepLoopStates` is the loop's final state. -/
theorem stepLoopStates_getLastD (steps : List BuildStep) (o : Nat → StepOracle) :
    ∀ (i : Nat) (st : PipelineState),
      (stepLoopStates steps o i st).getLastD st = stepLoop steps o i st := by
  induction steps with
  | nil => intro i st; simp [stepLoopStates, stepLoop]
  | cons step rest ih =>
      intro i st
      simp only [stepLoopStates, stepLoop]
      split
      · simp
      · split
        · simp
        · rw [List.getLastD_cons]
          exact ih (i + 1) _

/-- The last trace state of `streamStepLoopStates` is the loop's final
state. -/
theorem streamStepLoopStates_getLastD (steps : List BuildStep) (o : Nat → StreamStepOracle) :
    ∀ (i : Nat) (st : PipelineState),
      (streamStepLoopStates steps o i st).getLastD st = streamStepLoop steps o i st := by
  induction steps with
  | nil => intro i st; simp [streamStepLoopStates, streamStepLoop]
  | cons step rest ih =>
      intro i st
      simp only [streamStepLoopStates, streamStepLoop]
      split
      · simp
      · split
        · simp
        · rw [List.getLastD_cons]
          exact ih (i + 1) _

/-- Invariant: every state of the unary pipeline trace has its completed
counter equal to its StepResult count. -/
theorem stepLoopStates_count_inv (steps : List BuildStep) (o : Nat → StepOracle) :
    ∀ (i : Nat) (st : PipelineState),
      st.completedSteps = st.stepResults.length → st.stepResults.length = i →
      ∀ x ∈ stepLoopStates steps o i st, x.completedSteps = x.stepResults.length := by
  induction steps with
  | nil => intro i st _ _ x hx; simp [stepLoopStates] at hx
  | cons step rest ih =>
      intro i st h1 h2 x hx
      have hcounts := processStep_counts step (o i) i st
      simp only [stepLoopStates] at hx
      split at hx
      · simp only [List.mem_singleton] at hx
        subst hx; simpa using h1
      · split at hx
        · simp only [List.mem_singleton] at hx
          subst hx; omega
        · simp only [List.mem_cons] at hx
          rcases hx with hx | hx
          · subst hx; omega
          · exact ih (i + 1) (processStep step (o i) i st) (by omega) (by omega) x hx

/-- Invariant: every state of the streaming pipeline trace has its
completed counter equal to its StepResult count. -/
theorem streamStepLoopStates_count_inv (steps : List BuildStep) (o : Nat → StreamStepOracle) :
    ∀ (i : Nat) (st : PipelineState),
      st.completedSteps = st.stepResults.length → st.stepResults.length = i →
      ∀ x ∈ streamStepLoopStates steps o i st, x.completedSteps = x.stepResults.length := by
  induction steps with
  | nil => intro i st _ _ x hx; simp [streamStepLoopStates] at hx
  | cons step rest ih =>
      intro i st h1 h2 x hx
      simp only [streamStepLoopStates] at hx
      split at hx
      · simp only [List.mem_singleton] at hx
        subst hx; simpa using h1
      · split at hx
        · simp only [List.mem_singleton] at hx
          subst hx; simp; omega
        · simp only [List.mem_cons] at hx
          rcases hx with hx | hx
          · subst hx; simp; omega
          · refine ih (i + 1) _ ?_ ?_ x hx
            · simp; omega
            · simp; omega

/-- The completed counter never decreases along the unary pipeline trace. -/
theorem stepLoopStates_mono (steps : List BuildStep) (o : Nat → StepOracle) :
    ∀ (i : Nat) (st : PipelineState), st.completedSteps ≤ i →
      List.Chain' (fun a b => a.completedSteps ≤ b.completedSteps)
        (st :: stepLoopStates steps o i st) := by
  induction steps with
  | nil => intro i st _; simp [stepLoopStates]
  | cons step rest ih =>
      intro i st h
      have hcounts := (processStep_counts step (o i) i st).1
      simp only [stepLoopStates]
      split
      · simp only [List.chain'_cons, List.chain'_singleton, and_true]
        simp
      · split
        · simp only [List.chain'_cons, List.chain'_singleton, and_true]
          omega
        · rw [List.chain'_cons]
          exact ⟨by omega, ih (i + 1) _ (by omega)⟩

/-- The completed counter never decreases along the streaming pipeline
trace. -/
theorem streamStepLoopStates_mono (steps : List BuildStep) (o : Nat → StreamStepOracle) :
    ∀ (i : Nat) (st : PipelineState), st.completedSteps ≤ i →
      List.Chain' (fun a b => a.completedSteps ≤ b.completedSteps)
        (st :: streamStepLoopStates steps o i st) := by
  induction steps with
  | nil => intro i st _; simp [streamStepLoopStates]
  | cons step rest ih =>
      intro i st h
      simp only [streamStepLoopStates]
      split
      · simp only [List.chain'_cons, List.chain'_singleton, and_true]
        simp
      · split
        · simp only [List.chain'_cons, List.chain'_singleton, and_true]
          exact Nat.le_succ_of_le h
        · rw [List.chain'_cons]
          refine ⟨Nat.le_succ_of_le h, ?_⟩
          exact ih (i + 1) _ (Nat.le_refl _)

/-- Claim C7: in both pipeline loops, run from the initial state, every
post-step state has its completedSteps equal to the number of StepResults
appended so far, and completedSteps is monotonically non-decreasing over
the run. -/
theorem pipeline_completedSteps_invariant (req : PipelineRequest)
    (o : Nat → StepOracle) (os : Nat → StreamStepOracle) :
    (∀ x ∈ stepLoopStates req.steps o 0 initPipelineState,
        x.completedSteps = x.stepResults.length) ∧
    List.Chain' (fun a b => a.completedSteps ≤ b.completedSteps)
      (initPipelineState :: stepLoopStates req.steps o 0 initPipelineState) ∧
    (∀ x ∈ streamStepLoopStates req.steps os 0 initPipelineState,
        x.completedSteps = x.stepResults.length) ∧
    List.Chain' (fun a b => a.completedSteps ≤ b.completedSteps)
      (initPipelineState :: streamStepLoopStates req.steps os 0 initPipelineState) :=
  ⟨stepLoopStates_count_inv req.steps o 0 initPipelineState rfl rfl,
   stepLoopStates_mono req.steps o 0 initPipelineState (Nat.le_refl 0),
   streamStepLoopStates_count_inv req.steps os 0 initPipelineState rfl rfl,
   streamStepLoopStates_mono req.steps os 0 initPipelineState (Nat.le_refl 0)⟩

/-- Claim C9: the returned PipelineResult's totalSteps always equals the
number of steps in the request, whatever the oracle makes the loop do
(early aborts included), and completedSteps never exceeds totalSteps. -/
theorem executePipeline_totalSteps_bound (req : PipelineRequest) (genId : String)
    (o : Nat → StepOracle) :
    (executePipeline req genId o).totalSteps = req.steps.length ∧
    (executePipeline req genId o).completedSteps ≤ (executePipeline req genId o).totalSteps := by
  refine ⟨rfl, ?_⟩
  have := stepLoop_completed_le req.steps o 0 initPipelineState (Nat.le_refl 0)
  simpa [executePipeline] using this

/-- If every remaining step's invocation returns a result and every
unsuccessful result belongs to a continuable step, the loop keeps
success true and processes every step. -/
theorem stepLoop_all_ok (steps : List BuildStep) (o : Nat → StepOracle) :
    ∀ (i : Nat) (st : PipelineState), st.success = true → st.completedSteps = i →
      (∀ j, j < steps.length → (o (i + j)).ctxDone = false) →
      (∀ j, j < steps.length → ∃ r, (o (i + j)).exec = Except.ok r) →
      (∀ j (hj : j < steps.length) r, (o (i + j)).exec = Except.ok r →
          r.success = false → (steps.get ⟨j, hj⟩).continueOnError = true) →
      (stepLoop steps o i st).success = true ∧
      (stepLoop steps o i st).completedSteps = i + steps.length := by
  induction steps with
  | nil => intro i st hs hcs _ _ _; simp [stepLoop, hs, hcs]
  | cons step rest ih =>
      intro i st hs hcs hctx hok hcoe
      have hc0 : (o i).ctxDone = false := by simpa using hctx 0 (Nat.succ_pos _)
      obtain ⟨r, hr⟩ := hok 0 (Nat.succ_pos _)
      rw [Nat.add_zero] at hr
      have hpres : (processStep step (o i) i st).success = st.success ∧
          (processStep step (o i) i st).failedStep = st.failedStep := by
        refine processStep_ok_preserves step (o i) i st r hr ?_
        cases hrs : r.success with
        | true => exact Or.inl rfl
        | false =>
            exact Or.inr (by simpa using hcoe 0 (Nat.succ_pos _) r (by simpa using hr) hrs)
      have hs2 : (processStep step (o i) i st).success = true := hpres.1.trans hs
      have hcs2 : (processStep step (o i) i st).completedSteps = i + 1 :=
        (processStep_counts step (o i) i st).1
      simp only [stepLoop, hc0, Bool.false_eq_true, if_false]
      rw [if_neg (by simp [hs2])]
      have hrest := ih (i + 1) (processStep step (o i) i st) hs2 hcs2
        (fun j hj => by
          have := hctx (j + 1) (by simpa using Nat.succ_lt_succ hj)
          rwa [show i + (j + 1) = i + 1 + j by omega] at this)
        (fun j hj => by
          have := hok (j + 1) (by simpa using Nat.succ_lt_succ hj)
          rwa [show i + (j + 1) = i + 1 + j by omega] at this)
        (fun j hj r2 hr2 hrs2 => by
          have := hcoe (j + 1) (by simpa using Nat.succ_lt_succ hj) r2
            (by rwa [show i + (j + 1) = i + 1 + j by omega]) hrs2
          simpa using this)
      refine ⟨hrest.1, ?_⟩
      rw [hrest.2]
      simp [Nat.add_assoc, Nat.add_comm 1 rest.length]

/-- Claim C2 counterexample: a 3-step pipeline whose first step is
continuable but suffers an invocation failure (`s.Execute` returns an
error): the code sets success=false and failedStep="step1" although the
failing step's continueOnError is set, and the run then halts after step 2
(a succeeding, non-continuable step) because the break condition consults
the pipeline's accumulated success flag — so step 3 never runs. -/
theorem pipeline_continueOnError_still_fails :
    stepCexA.continueOnError = true ∧
    (executePipeline cexReq "gen" cexOracle).success = false ∧
    (executePipeline cexReq "gen" cexOracle).failedStep = "step1" ∧
    (executePipeline cexReq "gen" cexOracle).completedSteps = 2 ∧
    ((executePipeline cexReq "gen" cexOracle).stepResults.map
        (fun sr => sr.executeResult.success)) = [false, true] :=
  ⟨rfl, rfl, rfl, rfl, rfl⟩

/-- Claim C2 (amended): a continuable step's unsuccessful execution result
neither halts the sequence nor flips pipeline success: if every step's
invocation returns a result and every unsuccessful result belongs to a
continuable step, the pipeline ends successful with all steps processed.
However, a failure where the step's invocation itself could not occur
(a synthesized failed result) sets success=false and failedStep even when
that step's continueOnError is set. -/
theorem pipeline_continueOnError_semantics (steps : List BuildStep) (o : Nat → StepOracle)
    (hctx : ∀ j, j < steps.length → (o j).ctxDone = false)
    (hok : ∀ j, j < steps.length → ∃ r, (o j).exec = Except.ok r)
    (hcoe : ∀ j (hj : j < steps.length) r, (o j).exec = Except.ok r →
        r.success = false → (steps.get ⟨j, hj⟩).continueOnError = true) :
    (stepLoop steps o 0 initPipelineState).success = true ∧
    (stepLoop steps o 0 initPipelineState).completedSteps = steps.length ∧
    (∀ (step : BuildStep) (oo : StepOracle) (i : Nat) (st : PipelineState) (e : String),
        oo.exec = Except.error e →
        (processStep step oo i st).success = false ∧
        (processStep step oo i st).failedStep = step.name) := by
  have h := stepLoop_all_ok steps o 0 initPipelineState rfl rfl
    (by simpa using hctx) (by simpa using hok) (by simpa using hcoe)
  refine ⟨h.1, by simpa using h.2, ?_⟩
  intro step oo i st e he
  simp [processStep, he]

/-- Witness for the amended C2: a single continuable step returning a
failed result leaves the pipeline successful. -/
theorem pipeline_continueOnError_semantics_witness :
    (stepLoop [stepW] wOracle 0 initPipelineState).success = true ∧
    (stepLoop [stepW] wOracle 0 initPipelineState).completedSteps = 1 := by
  have hctx : ∀ j, j < ([stepW] : List BuildStep).length → (wOracle j).ctxDone = false :=
    fun j hj => rfl
  have hok : ∀ j, j < ([stepW] : List BuildStep).length →
      ∃ r, (wOracle j).exec = Except.ok r :=
    fun j hj => ⟨failResponse, rfl⟩
  have hcoe : ∀ j (hj : j < ([stepW] : List BuildStep).length) r,
      (wOracle j).exec = Except.ok r → r.success = false →
      (([stepW] : List BuildStep).get ⟨j, hj⟩).continueOnError = true := by
    intro j hj r hr hrs
    have hj2 : j < 1 := by simpa using hj
    have hj0 : j = 0 := by omega
    subst hj0
    rfl
  have h := pipeline_continueOnError_semantics [stepW] wOracle hctx hok hcoe
  exact ⟨h.1, h.2.1⟩

/-- Characterization of a step body whose result is a failure on a
non-continuable step. -/
theorem processStep_fail_eq (step : BuildStep) (o : StepOracle) (i : Nat)
    (st : PipelineState) (r : ExecuteResponse) (hr : o.exec = Except.ok r)
    (hrs : r.success = false) (hcoe : step.continueOnError = false) :
    processStep step o i st =
      { success := false
        failedStep := step.name
        stepResults := st.stepResults ++ [{ name := step.name, stepIndex := i, executeResult := r }]
        completedSteps := i + 1 } := by
  simp [processStep, hr, hrs, hcoe]

/-- Characterization of a step body whose result is successful. -/
theorem processStep_succ_eq (step : BuildStep) (o : StepOracle) (i : Nat)
    (st : PipelineState) (r : ExecuteResponse) (hr : o.exec = Except.ok r)
    (hrs : r.success = true) :
    processStep step o i st =
      { st with
        stepResults := st.stepResults ++ [{ name := step.name, stepIndex := i, executeResult := r }]
        completedSteps := i + 1 } := by
  simp [processStep, hr, hrs]

/-- After a prefix of succeeding steps, the first failing result on a
non-continuable step marks the pipeline failed with that step's name,
appends its StepResult, and breaks the loop; the failure is recorded
exactly once (every earlier trace state still has success true). -/
theorem stepLoop_first_noncontinuable_failure (pre : List BuildStep) (failStep : BuildStep)
    (post : List BuildStep) (o : Nat → StepOracle) :
    ∀ (i : Nat) (st : PipelineState),
      st.success = true → st.failedStep = "" →
      st.completedSteps = i → st.stepResults.length = i →
      (∀ j, j < pre.length + 1 → (o (i + j)).ctxDone = false) →
      (∀ j, j < pre.length → ∃ r, (o (i + j)).exec = Except.ok r ∧ r.success = true) →
      (∃ rf, (o (i + pre.length)).exec = Except.ok rf ∧ rf.success = false) →
      failStep.continueOnError = false →
      (stepLoop (pre ++ failStep :: post) o i st).success = false ∧
      (stepLoop (pre ++ failStep :: post) o i st).failedStep = failStep.name ∧
      (stepLoop (pre ++ failStep :: post) o i st).completedSteps = i + (pre.length + 1) ∧
      (stepLoop (pre ++ failStep :: post) o i st).stepResults.length = i + (pre.length + 1) ∧
      (stepLoopStates (pre ++ failStep :: post) o i st).length = pre.length + 1 ∧
      (∀ x ∈ stepLoopStates (pre ++ failStep :: post) o i st,
          x.success = false → x.failedStep = failStep.name ∧
            x.completedSteps = i + (pre.length + 1)) := by
  induction pre with
  | nil =>
      intro i st hs hf hcs hlen hctx hpre hfail hcoe
      obtain ⟨rf, hrf, hrfs⟩ := hfail
      rw [List.length_nil, Nat.add_zero] at hrf
      have hc0 : (o i).ctxDone = false := by simpa using hctx 0 (by simp)
      have heq := processStep_fail_eq failStep (o i) i st rf hrf hrfs hcoe
      have hcond : (!(processStep failStep (o i) i st).success &&
          !failStep.continueOnError) = true := by
        simp [heq, hcoe]
      have hloop : stepLoop ([] ++ failStep :: post) o i st =
          processStep failStep (o i) i st := by
        simp only [List.nil_append, stepLoop, hc0, Bool.false_eq_true, if_false]
        rw [if_pos hcond]
      have htrace : stepLoopStates ([] ++ failStep :: post) o i st =
          [processStep failStep (o i) i st] := by
        simp only [List.nil_append, stepLoopStates, hc0, Bool.false_eq_true, if_false]
        rw [if_pos hcond]
      rw [hloop, htrace]
      refine ⟨by simp [heq], by simp [heq], by simp [heq], by simp [heq, hlen], by simp, ?_⟩
      intro x hx hxs
      have hx2 := List.mem_singleton.mp hx
      subst hx2
      exact ⟨by simp [heq], by simp [heq]⟩
  | cons p pre2 ih =>
      intro i st hs hf hcs hlen hctx hpre hfail hcoe
      obtain ⟨r, hr, hrs⟩ := hpre 0 (by simp)
      rw [Nat.add_zero] at hr
      have hc0 : (o i).ctxDone = false := by simpa using hctx 0 (by simp)
      have heq := processStep_succ_eq p (o i) i st r hr hrs
      have hcond : ¬((!(processStep p (o i) i st).success && !p.continueOnError) = true) := by
        simp [heq, hs]
      have hloop : stepLoop ((p :: pre2) ++ failStep :: post) o i st =
          stepLoop (pre2 ++ failStep :: post) o (i + 1) (processStep p (o i) i st) := by
        simp only [List.cons_append, stepLoop, hc0, Bool.false_eq_true, if_false]
        rw [if_neg hcond]
        rfl
      have htrace : stepLoopStates ((p :: pre2) ++ failStep :: post) o i st =
          processStep p (o i) i st ::
            stepLoopStates (pre2 ++ failStep :: post) o (i + 1) (processStep p (o i) i st) := by
        simp only [List.cons_append, stepLoopStates, hc0, Bool.false_eq_true, if_false]
        rw [if_neg hcond]
        rfl
      have hrec := ih (i + 1) (processStep p (o i) i st)
        (by simp [heq, hs]) (by simp [heq, hf]) (by simp [heq]) (by simp [heq, hlen])
        (fun j hj => by
          have := hctx (j + 1) (by simp only [List.length_cons]; omega)
          rwa [show i + (j + 1) = i + 1 + j by omega] at this)
        (fun j hj => by
          have := hpre (j + 1) (by simp only [List.length_cons]; omega)
          rwa [show i + (j + 1) = i + 1 + j by omega] at this)
        (by
          obtain ⟨rf, hrf, hrfs⟩ := hfail
          refine ⟨rf, ?_, hrfs⟩
          rwa [show i + (p :: pre2).length = i + 1 + pre2.length by
            simp only [List.length_cons]; omega] at hrf)
        hcoe
      rw [hloop, htrace]
      simp only [List.length_cons]
      refine ⟨hrec.1, hrec.2.1, ?_, ?_, ?_, ?_⟩
      · rw [hrec.2.2.1]; omega
      · rw [hrec.2.2.2.1]; omega
      · rw [hrec.2.2.2.2.1]
      · intro x hx hxs
        rcases List.mem_cons.mp hx with hx2 | hx2
        · subst hx2
          rw [heq] at hxs
          simp [hs] at hxs
        · obtain ⟨hh1, hh2⟩ := hrec.2.2.2.2.2 x hx2 hxs
          exact ⟨hh1, by rw [hh2]; omega⟩

/-- Claim C5: the first step that fails (unsuccessful result) while its
continueOnError is unset sets success=false and failedStep to that step's
name exactly once (every earlier trace state still has success true and
only the final state carries the failure), and no step after it executes:
exactly pre.length + 1 iterations ran and as many StepResults exist. -/
theorem pipeline_first_failure_stops (req : PipelineRequest) (genId : String)
    (pre : List BuildStep) (failStep : BuildStep) (post : List BuildStep)
    (o : Nat → StepOracle)
    (hsteps : req.steps = pre ++ failStep :: post)
    (hctx : ∀ j, j < pre.length + 1 → (o j).ctxDone = false)
    (hpre : ∀ j, j < pre.length → ∃ r, (o j).exec = Except.ok r ∧ r.success = true)
    (hfail : ∃ rf, (o pre.length).exec = Except.ok rf ∧ rf.success = false)
    (hcoe : failStep.continueOnError = false) :
    (executePipeline req genId o).success = false ∧
    (executePipeline req genId o).failedStep = failStep.name ∧
    (executePipeline req genId o).completedSteps = pre.length + 1 ∧
    (executePipeline req genId o).stepResults.length = pre.length + 1 ∧
    (stepLoopStates req.steps o 0 initPipelineState).length = pre.length + 1 ∧
    (∀ x ∈ stepLoopStates req.steps o 0 initPipelineState,
        x.success = false → x.failedStep = failStep.name ∧
          x.completedSteps = pre.length + 1) := by
  have h := stepLoop_first_noncontinuable_failure pre failStep post o 0 initPipelineState
    rfl rfl rfl rfl (by simpa using hctx) (by simpa using hpre) (by simpa using hfail) hcoe
  simp only [executePipeline, hsteps]
  exact ⟨h.1, h.2.1, by simpa using h.2.2.1, by simpa using h.2.2.2.1,
    h.2.2.2.2.1, by simpa using h.2.2.2.2.2⟩

/-- Witness for C5: the spec's 3-step scenario (step 1 succeeds, step 2
fails with continueOnError unset): success=false, failedStep="step2",
completedSteps=2, and step 3 never ran. -/
theorem pipeline_first_failure_stops_witness :
    (executePipeline specReq "gen" specOracle).success = false ∧
    (executePipeline specReq "gen" specOracle).failedStep = "step2" ∧
    (executePipeline specReq "gen" specOracle).completedSteps = 2 ∧
    (executePipeline specReq "gen" specOracle).stepResults.length = 2 := by
  have hctx : ∀ j, j < ([stepS1] : List BuildStep).length + 1 → (specOracle j).ctxDone = false := by
    intro j hj
    by_cases h0 : j = 0 <;> simp [specOracle, h0]
  have hpre : ∀ j, j < ([stepS1] : List BuildStep).length →
      ∃ r, (specOracle j).exec = Except.ok r ∧ r.success = true := by
    intro j hj
    have hj2 : j < 1 := by simpa using hj
    have hj0 : j = 0 := by omega
    subst hj0
    exact ⟨okResponse, rfl, rfl⟩
  have hfail : ∃ rf, (specOracle ([stepS1] : List BuildStep).length).exec = Except.ok rf ∧
      rf.success = false := ⟨failResponse, rfl, rfl⟩
  have h := pipeline_first_failure_stops specReq "gen" [stepS1] stepCexB [stepCexC]
    specOracle rfl hctx hpre hfail rfl
  exact ⟨h.1, h.2.1, by simpa using h.2.2.1, by simpa using h.2.2.2.1⟩

/-- Claim C10: for every server state, `Health` reports status "healthy"
and version "0.1.0" unconditionally, and its running count equals the
number of entries in the process registry at the time of the call. -/
theorem health_reports_healthy_and_registry_count (s : ServerState) :
    (health s).status = "healthy" ∧ (health s).version = "0.1.0" ∧
    (health s).runningCount = s.running.length :=
  ⟨rfl, rfl, rfl⟩

/-- Claim C8: the termination classifier maps a clean exit to exitCode 0
and success (whatever the context state); a failed wait under an expired
deadline to exitCode -1, success false, timedOut true, error "command
timed out"; a non-zero exit without deadline expiry (context state nil or
canceled) to the actual exit code, success false and the underlying
message; and any other wait failure without deadline expiry to exitCode
-1, success false and the message. -/
theorem classify_termination_cases (b : ExecuteResponse) (c : Int) (m : String)
    (ce : CtxErr) :
    classify b WaitResult.ok ce = { b with exitCode := 0, success := true } ∧
    classify b (WaitResult.exitError c m) CtxErr.deadlineExceeded =
      { b with exitCode := -1, success := false, error := "command timed out", timedOut := true } ∧
    classify b (WaitResult.otherError m) CtxErr.deadlineExceeded =
      { b with exitCode := -1, success := false, error := "command timed out", timedOut := true } ∧
    classify b (WaitResult.exitError c m) CtxErr.noErr =
      { b with exitCode := c, success := false, error := m } ∧
    classify b (WaitResult.exitError c m) CtxErr.canceled =
      { b with exitCode := c, success := false, error := m } ∧
    classify b (WaitResult.otherError m) CtxErr.noErr =
      { b with exitCode := -1, success := false, error := m } ∧
    classify b (WaitResult.otherError m) CtxErr.canceled =
      { b with exitCode := -1, success := false, error := m } :=
  ⟨rfl, rfl, rfl, rfl, rfl, rfl, rfl⟩

/-- Claim C6: for a tool outside the allowlist, `execute` returns the
policy rejection before spawning anything: the call-boundary value is an
error, no process is spawned, and the registry holds exactly its entry-time
contents both during and after the call. -/
theorem execute_disallowed_tool_no_spawn (cfg : ExecutorConfig) (reg : List String)
    (req : ExecuteRequest) (pid : String) (env : ExecEnv)
    (h : isToolAllowed cfg req.tool = false) :
    (execute cfg reg req pid env).result =
      Except.error ("tool '" ++ req.tool ++ "' is not allowed") ∧
    (execute cfg reg req pid env).spawned = false ∧
    (execute cfg reg req pid env).registryDuring = reg ∧
    (execute cfg reg req pid env).registryFinal = reg := by
  simp [execute, h]

/-- Witness for C6 at a concrete disallowed request. -/
theorem execute_disallowed_tool_no_spawn_witness :
    isToolAllowed { allowedTools := ["echo"], defaultTimeout := 30, maxConcurrent := 4 } "rm" = false ∧
    (execute { allowedTools := ["echo"], defaultTimeout := 30, maxConcurrent := 4 }
        ["other-pid"]
        { tool := "rm", args := ["-rf"], workDir := "", env := [], timeoutSeconds := 0 }
        "pid-1"
        { stdoutPipeErr := none, stderrPipeErr := none, startErr := none,
          wait := WaitResult.ok, ctxErr := CtxErr.noErr, stdout := "", stderr := "" }).spawned = false ∧
    (execute { allowedTools := ["echo"], defaultTimeout := 30, maxConcurrent := 4 }
        ["other-pid"]
        { tool := "rm", args := ["-rf"], workDir := "", env := [], timeoutSeconds := 0 }
        "pid-1"
        { stdoutPipeErr := none, stderrPipeErr := none, startErr := none,
          wait := WaitResult.ok, ctxErr := CtxErr.noErr, stdout := "", stderr := "" }).registryFinal = ["other-pid"] :=
  ⟨by decide,
   (execute_disallowed_tool_no_spawn _ _ _ _ _ (by decide)).2.1,
   (execute_disallowed_tool_no_spawn _ _ _ _ _ (by decide)).2.2.2⟩

/-- Claim C1 counterexample: for an allowlisted tool whose process start
fails, `execute` returns an error at the call boundary (the Go function
returns `nil, fmt.Errorf(...)` at server.go 92-94) instead of encoding the
spawn failure into a normally returned ExecutionResult. -/
theorem execute_start_failure_raises :
    isToolAllowed { allowedTools := ["echo"], defaultTimeout := 30, maxConcurrent := 4 } "echo" = true ∧
    (execute { allowedTools := ["echo"], defaultTimeout := 30, maxConcurrent := 4 } []
        { tool := "echo", args := ["hi"], workDir := "", env := [], timeoutSeconds := 0 }
        "pid-1"
        { stdoutPipeErr := none, stderrPipeErr := none,
          startErr := some "exec: executable file not found",
          wait := WaitResult.ok, ctxErr := CtxErr.noErr, stdout := "", stderr := "" }).result =
      Except.error "failed to start command: exec: executable file not found" :=
  ⟨by decide, rfl⟩

/-- Claim C1 (amended): for an allowlisted tool, only post-start failures
(runtime, timeout) are encoded into the normally returned result; a
pipe-setup failure or a start failure is returned as an error at the call
boundary, alongside the policy rejection of a disallowed tool. -/
theorem execute_call_boundary_errors (cfg : ExecutorConfig) (reg : List String)
    (req : ExecuteRequest) (pid : String) (env : ExecEnv)
    (h : isToolAllowed cfg req.tool = true) :
    (env.stdoutPipeErr = none → env.stderrPipeErr = none → env.startErr = none →
      (execute cfg reg req pid env).result =
        Except.ok (classify (baseResponse req pid env) env.wait env.ctxErr)) ∧
    (∀ e, env.stdoutPipeErr = none → env.stderrPipeErr = none → env.startErr = some e →
      (execute cfg reg req pid env).result =
        Except.error ("failed to start command: " ++ e)) ∧
    (∀ e, env.stdoutPipeErr = some e →
      (execute cfg reg req pid env).result =
        Except.error ("failed to create stdout pipe: " ++ e)) ∧
    (∀ e, env.stdoutPipeErr = none → env.stderrPipeErr = some e →
      (execute cfg reg req pid env).result =
        Except.error ("failed to create stderr pipe: " ++ e)) := by
  refine ⟨?_, ?_, ?_, ?_⟩
  · intro h1 h2 h3
    simp [execute, h, h1, h2, h3]
  · intro e h1 h2 h3
    simp [execute, h, h1, h2, h3]
  · intro e h1
    simp [execute, h, h1]
  · intro e h1 h2
    simp [execute, h, h1, h2]

/-- Witness for the amended C1 at a concrete allowlisted request whose
process exits non-zero: the failure is encoded, not raised. -/
theorem execute_call_boundary_errors_witness :
    isToolAllowed { allowedTools := ["echo"], defaultTimeout := 30, maxConcurrent := 4 } "echo" = true ∧
    (execute { allowedTools := ["echo"], defaultTimeout := 30, maxConcurrent := 4 } []
        { tool := "echo", args := [], workDir := "", env := [], timeoutSeconds := 0 }
        "pid-1"
        { stdoutPipeErr := none, stderrPipeErr := none, startErr := none,
          wait := WaitResult.exitError 2 "exit status 2", ctxErr := CtxErr.noErr,
          stdout := "", stderr := "boom" }).result =
      Except.ok (classify
        (baseResponse { tool := "echo", args := [], workDir := "", env := [], timeoutSeconds := 0 }
          "pid-1"
          { stdoutPipeErr := none, stderrPipeErr := none, startErr := none,
            wait := WaitResult.exitError 2 "exit status 2", ctxErr := CtxErr.noErr,
            stdout := "", stderr := "boom" })
        (WaitResult.exitError 2 "exit status 2") CtxErr.noErr) :=
  ⟨by decide, (execute_call_boundary_errors _ _ _ _ _ (by decide)).1 rfl rfl rfl⟩

/-- Claim C3 counterexample: firing a tracked process's cancellation
control puts its context into the `Canceled` state, so the classifier
takes the exit-error branch: timedOut stays false and the error is the
kill message, which is distinguishable from the deadline-expiry shape
(timedOut true, error "command timed out"). -/
theorem cancel_result_distinguishable_from_timeout :
    (cancelProcess [("p1", { id := "p1", tool := "sleep", args := ["5"] })] "p1").2 = true ∧
    ctxErrAfterExplicitCancel ≠ CtxErr.deadlineExceeded ∧
    classify zeroResponse (WaitResult.exitError (-1) "signal: killed") ctxErrAfterExplicitCancel =
      { zeroResponse with exitCode := -1, success := false, error := "signal: killed", timedOut := false } ∧
    classify zeroResponse (WaitResult.exitError (-1) "signal: killed") CtxErr.deadlineExceeded =
      { zeroResponse with exitCode := -1, success := false, error := "command timed out", timedOut := true } ∧
    classify zeroResponse (WaitResult.exitError (-1) "signal: killed") ctxErrAfterExplicitCancel ≠
      classify zeroResponse (WaitResult.exitError (-1) "signal: killed") CtxErr.deadlineExceeded :=
  ⟨rfl, by decide, rfl, rfl, by decide⟩

/-- Claim C3 (amended): explicit cancellation and deadline expiry both
yield success false (and, for a signal kill, exitCode -1), but their
results are distinguishable: under any non-deadline context state the
classification has timedOut equal to the base's (false in Execute) and
carries the underlying message, while deadline expiry sets timedOut true
with error "command timed out". -/
theorem classify_cancel_shape (b : ExecuteResponse) (c : Int) (m : String)
    (ce : CtxErr) (hce : ce ≠ CtxErr.deadlineExceeded) :
    classify b (WaitResult.exitError c m) ce =
      { b with exitCode := c, success := false, error := m } ∧
    (classify b (WaitResult.exitError c m) ce).timedOut = b.timedOut ∧
    (classify b (WaitResult.exitError c m) CtxErr.deadlineExceeded).timedOut = true := by
  refine ⟨?_, ?_, rfl⟩ <;> simp [classify, hce]

/-- Witness for the amended C3 at the concrete cancellation scenario. -/
theorem classify_cancel_shape_witness :
    ctxErrAfterExplicitCancel ≠ CtxErr.deadlineExceeded ∧
    classify zeroResponse (WaitResult.exitError (-1) "signal: killed") ctxErrAfterExplicitCancel =
      { zeroResponse with exitCode := -1, success := false, error := "signal: killed" } :=
  ⟨by decide,
   (classify_cancel_shape zeroResponse (-1) "signal: killed" ctxErrAfterExplicitCancel (by decide)).1⟩

/-- Claim C4 counterexample: with two lines on a channel whose first
delivery fails, the reader returns at once: the buffer holds only the
first line and the second line is never accumulated, contradicting the
claim that accumulation of subsequent lines continues. -/
theorem stream_send_failure_stops_accumulation :
    streamOutput [("a", false), ("b", true)] "" = ("a\n", []) ∧
    streamPipelineOutput [("a", false), ("b", true)] "" = ("a\n", []) ∧
    ("a\n" : String) ≠ "a\nb\n" :=
  ⟨rfl, rfl, by decide⟩

/-- Claim C4 (amended): a failed sink delivery makes the reader return at
once: lines before the failure are accumulated and forwarded, the line
whose delivery failed is accumulated but not forwarded, and every later
line of that channel is neither forwarded nor accumulated (the result does
not depend on `rest`); the reader holds no process handle, so the
underlying process is not aborted. -/
theorem streamOutput_halts_at_failed_send (good : List (String × Bool)) (l : String)
    (rest : List (String × Bool)) (buf : String)
    (hgood : ∀ p ∈ good, p.2 = true) :
    streamOutput (good ++ (l, false) :: rest) buf =
      (buf ++ linesBuf (good.map Prod.fst) ++ l ++ "\n", good.map Prod.fst) ∧
    streamPipelineOutput (good ++ (l, false) :: rest) buf =
      (buf ++ linesBuf (good.map Prod.fst) ++ l ++ "\n", good.map Prod.fst) := by
  induction good generalizing buf with
  | nil => simp [streamOutput, streamPipelineOutput, linesBuf]
  | cons p good ih =>
      obtain ⟨lp, okp⟩ := p
      have hok : okp = true := hgood (lp, okp) (List.mem_cons_self _ _)
      subst hok
      have ih2 := ih (buf ++ lp ++ "\n") (fun q hq => hgood q (List.mem_cons_of_mem _ hq))
      simp only [String.append_assoc] at ih2
      simp [streamOutput, streamPipelineOutput, linesBuf, ih2.1, ih2.2, String.append_assoc]

/-- Witness for the amended C4 at a concrete run: one delivered line, then
a failed delivery, then one further line that is dropped entirely. -/
theorem streamOutput_halts_at_failed_send_witness :
    streamOutput [("x", true), ("y", false), ("z", true)] "" =
      ("" ++ linesBuf ["x"] ++ "y" ++ "\n", ["x"]) :=
  (streamOutput_halts_at_failed_send [("x", true)] "y" [("z", true)] ""
    (by decide)).1

end Necrosword
